import Mathlib

/-!
Verification of the reflection and meta-function layer (`reflect.h`) of the
cppfront compiler.  The reflective views, `compiler_services::require`, the
line-splitting stage of `parse_statement`, `type_declaration::add_member`,
the `interface` meta-function and `parser::apply_type_meta_functions` are
embedded as Lean functions; the declaration-node type, the lexer and the
full parser live outside this extract, so the queries and hooks they provide
are modelled as record fields or function parameters, following the
specification's description of those interfaces.
-/

set_option maxHeartbeats 1000000

namespace CppfrontReflect

/-- Source position carried by a diagnostic.  Modelled from the spec: the
default-constructed `source_position\x7b\x7d` is the empty/unknown position;
its numeric content is owned by code outside this extract. -/
structure SourcePosition where
  lineno : Int := 0
  colno  : Int := 0
deriving DecidableEq

/-- One entry of the shared diagnostic sink: a (position, message) pair,
as appended by `compiler_services::require`. -/
structure ErrorEntry where
  pos : SourcePosition
  msg : String
deriving DecidableEq

/-- Embeds `compiler_services::require` (reflect.h lines 102-112): when the
condition is false, append exactly one diagnostic entry `(pos, msg)` at the
end of the sink; when it is true, leave the sink unchanged.  The embedding
is a total function, matching the source, which never throws here. -/
def require (errors : List ErrorEntry) (b : Bool) (msg : String)
    (pos : SourcePosition) : List ErrorEntry :=
  if !b then errors ++ [⟨pos, msg⟩] else errors

/-- `require` with the position argument defaulted, as in the source's
default argument `source_position pos = source_position\x7b\x7d`. -/
def requireDefault (errors : List ErrorEntry) (b : Bool) (msg : String) :
    List ErrorEntry :=
  require errors b msg {}

/-- The face of a `declaration_node` that the reflective views of reflect.h
consult.  The node type itself is defined in parse.h, outside this extract,
so each query the views forward to the node is modelled as a recorded field
(modelled from the spec: kind predicates, role predicates, and the node's
opaque acceptance policy for mutation requests). -/
structure MemberNode where
  isObject : Bool := false
  isFunction : Bool := false
  isConstructorWithThat : Bool := false
  isConstructorWithInThat : Bool := false
  isConstructorWithMoveThat : Bool := false
  isAssignmentWithThat : Bool := false
  isAssignmentWithInThat : Bool := false
  isAssignmentWithMoveThat : Bool := false
  hasInitializer : Bool := false
  makePublicAccepts : Bool := true
  isPublic : Bool := false
  isVirtual : Bool := false
  isDestructor : Bool := false
deriving DecidableEq

/-- Embeds `function_declaration::is_copy_or_move` (reflect.h line 238):
`is_constructor_with_that() || is_assignment_with_that()`. -/
def is_copy_or_move (m : MemberNode) : Bool :=
  m.isConstructorWithThat || m.isAssignmentWithThat

/-- Modelled from the spec: `declaration::make_public` forwards to the
node's `make_public` (parse.h, outside this extract), which may refuse
under a policy owned by the node; the model records acceptance in
`makePublicAccepts`, and an accepted request sets the access to public. -/
def make_public (m : MemberNode) : Bool × MemberNode :=
  if m.makePublicAccepts then (true, { m with isPublic := true }) else (false, m)

/-- Modelled from the spec: `function_declaration::make_function_virtual`
forwards to the node's `make_function_virtual` (parse.h, outside this
extract); per the spec's testable property the member's virtual flag ends
set true when the `interface` meta-function requests it, so the model
records the request as accepted and sets the flag. -/
def make_function_virtual (m : MemberNode) : Bool × MemberNode :=
  (true, { m with isVirtual := true })

/-- The state the `interface` meta-function reads and writes: the type's
member list (reached through the `type_declaration` view) and the shared
diagnostic sink. -/
structure TypeState where
  members : List MemberNode
  errors  : List ErrorEntry
deriving DecidableEq

/-- Embeds `type_declaration::add_member` (reflect.h lines 362-369): run
the fragment compiler (`parse_statement`, abstracted as the `parse`
argument since lexing and parsing live outside this extract) and, on
success, append the new node to the type's member list.  The node's
`add_type_member` is modelled from the spec: on success it appends the new
syntax node to the type's member list and returns true. -/
def add_member (parse : String → Option MemberNode) (t : TypeState)
    (source : String) : Bool × TypeState :=
  match parse source with
  | some d => (true, { t with members := t.members ++ [d] })
  | none => (false, t)

/-- Diagnostic text of the data-object check (reflect.h line 400). -/
def msgObject : String := "interfaces may not contain data objects"

/-- Diagnostic text of the copy/move check (reflect.h line 404). -/
def msgCopyMove : String :=
  "interfaces may not copy or move; consider a virtual clone() instead"

/-- Diagnostic text of the function-body check (reflect.h line 406). -/
def msgBody : String :=
  "interface functions must not have a function body; remove the '=' initializer"

/-- Diagnostic text of the public-access check (reflect.h line 408). -/
def msgPublic : String := "interface functions must be public"

/-- Diagnostic text of the destructor-synthesis failure (reflect.h line 415). -/
def msgDtor : String := "could not add pure virtual destructor"

/-- The body of the member loop of the `interface` meta-function
(reflect.h lines 398-411) for one member: the data-object check, then, for
function members, the three policy checks, the unconditional
virtualization, and the destructor observation reported in the third
component. -/
def interfaceMember (m : MemberNode) (errors : List ErrorEntry) :
    MemberNode × List ErrorEntry × Bool :=
  let errors := require errors (!m.isObject) msgObject {}
  if m.isFunction then
    let errors := require errors (!(is_copy_or_move m)) msgCopyMove {}
    let errors := require errors (!m.hasInitializer) msgBody {}
    let r := make_public m
    let errors := require errors r.1 msgPublic {}
    let m2 := (make_function_virtual r.2).2
    (m2, errors, m2.isDestructor)
  else
    (m, errors, false)

/-- The member loop of the `interface` meta-function: fold
`interfaceMember` over the snapshot `t.get_members()`, threading the
diagnostic sink and the `has_dtor` flag. -/
def interfaceLoop : List MemberNode → List ErrorEntry → Bool →
    List MemberNode × List ErrorEntry × Bool
  | [], errors, hasDtor => ([], errors, hasDtor)
  | m :: ms, errors, hasDtor =>
    let r := interfaceMember m errors
    let rest := interfaceLoop ms r.2.1 (hasDtor || r.2.2)
    (r.1 :: rest.1, rest.2.1, rest.2.2)

/-- The fixed source-text template used to synthesize the pure virtual
destructor substitute (reflect.h line 414). -/
def dtorTemplate : String := "operator=: (virtual move this) = \x7b \x7d"

/-- Embeds the `interface` meta-function (reflect.h lines 394-417):
validate every member, virtualize every function member, and synthesize a
virtual destructor substitute when none of the member functions observed in
the loop is a destructor. -/
def interface (parse : String → Option MemberNode) (t : TypeState) :
    TypeState :=
  let r := interfaceLoop t.members t.errors false
  if !r.2.2 then
    let a := add_member parse { members := r.1, errors := r.2.1 } dtorTemplate
    { a.2 with errors := require a.2.errors a.1 msgDtor {} }
  else
    { members := r.1, errors := r.2.1 }

/-- The diagnostic text of `parser::error` at the unrecognized-name branch
(reflect.h line 438). -/
def unrecognizedMsg : String :=
  "(temporary alpha limitation) unrecognized meta function name - currently only unqualified 'interface' is supported"

/-- Modelled from the spec: `parser::error` (parse.h, outside this extract)
emits a fatal compiler error by appending it to the shared diagnostic
sink. -/
def parserEmitError (errors : List ErrorEntry) (msg : String) :
    List ErrorEntry :=
  errors ++ [⟨{}, msg⟩]

/-- Embeds `parser::apply_type_meta_functions` (reflect.h lines 423-443):
walk the declaration's meta-function names in declared order, apply
`interface` for each name equal to "interface", and stop with a fatal error
and result false at the first other name; result true when every name was
recognized. -/
def apply_type_meta_functions (parse : String → Option MemberNode) :
    List String → TypeState → Bool × TypeState
  | [], t => (true, t)
  | name :: rest, t =>
    if name = "interface" then
      apply_type_meta_functions parse rest (interface parse t)
    else
      (false, { t with errors := parserEmitError t.errors unrecognizedMsg })

/-- Embeds `std::string_view::find` of a single character, as used by
`parse_statement`: the index of the first occurrence, if any. -/
def strFind (c : Char) : List Char → Option Nat
  | [] => none
  | x :: xs => if x = c then some 0 else (strFind c xs).map (· + 1)

/-- The while-loop of `compiler_services::parse_statement` (reflect.h lines
74-79) that peels one line per newline found; returns the emitted lines and
the remaining source after the loop exits. -/
def lineLoop (source : List Char) : List (List Char) × List Char :=
  match h : strFind '\n' source with
  | some i =>
    let rest := lineLoop (source.drop (i + 1))
    (source.take i :: rest.1, rest.2)
  | none => ([], source)
termination_by source.length
decreasing_by
  simp only [List.length_drop]
  have hne : source ≠ [] := by
    intro hs
    rw [hs] at h
    simp [strFind] at h
  have hpos : 0 < source.length := List.length_pos.mpr hne
  omega

/-- Embeds the line-splitting stage of `compiler_services::parse_statement`
(reflect.h lines 67-83): the loop runs only when the fragment has length
greater than one and contains a newline; afterwards the remaining source is
added as a final line when non-empty. -/
def splitIntoLines (source : List Char) : List (List Char) :=
  let r :=
    if 1 < source.length ∧ (strFind '\n' source).isSome then lineLoop source
    else ([], source)
  r.1 ++ (if r.2 ≠ [] then [r.2] else [])

/-- Splitting on every newline, foldr-style: `n` newlines yield `n + 1`
segments, so the last segment is the remainder after the final newline.
Used to state the specification's description of line splitting. -/
def segmentsNl (s : List Char) : List (List Char) :=
  s.foldr
    (fun c acc =>
      if c = '\n' then [] :: acc
      else
        match acc with
        | [] => [[c]]
        | l :: ls => (c :: l) :: ls)
    [[]]

/-- Keeps every segment but the last as a line, and the last segment — the
remainder after the final newline — only when it is non-empty. -/
def dropLastKeep : List (List Char) → List (List Char)
  | [] => []
  | [l] => if l = [] then [] else [l]
  | l :: l2 :: ls => l :: dropLastKeep (l2 :: ls)

/-- The lines that claim C9 of the specification predicts for a fragment:
one line equal to the whole fragment when it has no line break; otherwise
each maximal newline-free segment before a newline becomes a line, and the
remainder after the last newline becomes a final line when non-empty.
Stated from the claim's words, for comparison against `splitIntoLines`. -/
def claimLines (s : List Char) : List (List Char) :=
  if (strFind '\n' s).isNone then [s]
  else dropLastKeep (segmentsNl s)

/-- The amended form of claim C9: the empty fragment is stored as no lines
at all, a fragment of length one is stored as itself as the only line (even
when that single character is a newline), and every longer fragment splits
exactly as the claim describes. -/
def amendedLines (s : List Char) : List (List Char) :=
  if s = [] then []
  else if s.length = 1 then [s]
  else claimLines s

/-- The message of the failed assertion
`assert(std::ssize(tokens.get_map()) == 1)` (reflect.h line 91). -/
def assertionMsg : String := "assert failed: std::ssize(tokens.get_map()) == 1"

/-- Embeds `compiler_services::parse_statement` at the token level
(reflect.h lines 85-98): lex the generated lines (the lexer lives outside
this extract and is abstracted as `lexGroupCount`, the number of entries of
the grammar map it produces), assert that exactly one token group resulted,
and parse one declaration from that group (the parser is external,
abstracted as `parseOne`).  `Except.error` models the failed assertion — a
fatal contract violation — while `Except.ok (lines, none)` models the
recoverable parse failure; the first component of a successful result is
the stored Generated-Source Record. -/
def parse_statement (lexGroupCount : List (List Char) → Nat)
    (parseOne : List (List Char) → Option MemberNode) (source : List Char) :
    Except String (List (List Char) × Option MemberNode) :=
  let lines := splitIntoLines source
  if lexGroupCount lines = 1 then Except.ok (lines, parseOne lines)
  else Except.error assertionMsg

/-- Bool-valued substring test on character lists, used to state that a
diagnostic message contains the fragment a claim quotes. -/
def containsSub (hay needle : List Char) : Bool :=
  match hay with
  | [] => needle.isEmpty
  | c :: t => needle.isPrefixOf (c :: t) || containsSub t needle

/-- The predicate that claim C8's wording describes: the disjunction of the
copy-narrowed (in-that) constructor and assignment shapes.  Stated from the
claim's words, for comparison with `is_copy_or_move`. -/
def claimCopyNarrowed (m : MemberNode) : Bool :=
  m.isConstructorWithInThat || m.isAssignmentWithInThat

/-- A move-constructor shape: it has a that-parameter constructor shape
whose narrowing is the move form, not the in/copy form. -/
def moveCtorNode : MemberNode :=
  { isFunction := true
    isConstructorWithThat := true
    isConstructorWithMoveThat := true }

/-- Modelled from the spec: the slice of a declaration node that the name
accessor consults — the node's name token, a pointer that is null exactly
when the declaration has no name ("name presence" in the spec). -/
structure NamedNode where
  nameTok : Option String
deriving DecidableEq

/-- Embeds the node query `has_name()` as forwarded by
`declaration::has_name` (modelled from the spec: name presence is the
presence of the name token). -/
def node_has_name (n : NamedNode) : Bool := n.nameTok.isSome

/-- Embeds `declaration::name` (reflect.h lines 176-179): consult the
node's name token only behind the `has_name()` guard, and return the empty
string otherwise.  `Except.error` models the null dereference that the
guard prevents. -/
def declaration_name (n : NamedNode) : Except Unit String :=
  if node_has_name n then
    match n.nameTok with
    | some s => Except.ok s
    | none => Except.error ()
  else Except.ok ""

/-- The effect of one pass of the `interface` member loop on the member
node itself: a function member has its access set to public when the node
accepts the request, and its virtual flag set; other members are left
untouched. -/
def transformMember (m : MemberNode) : MemberNode :=
  if m.isFunction then
    { m with
      isPublic := m.makePublicAccepts || m.isPublic
      isVirtual := true }
  else m

/-- The diagnostics one pass of the `interface` member loop appends for one
member, in emission order. -/
def memberDiags (m : MemberNode) : List ErrorEntry :=
  (if m.isObject then [⟨{}, msgObject⟩] else []) ++
    (if m.isFunction then
      (if is_copy_or_move m then [⟨{}, msgCopyMove⟩] else []) ++
        (if m.hasInitializer then [⟨{}, msgBody⟩] else []) ++
          (if m.makePublicAccepts then [] else [⟨{}, msgPublic⟩])
    else [])

/-- The diagnostics the whole `interface` member loop appends, in order. -/
def diagsOf : List MemberNode → List ErrorEntry
  | [] => []
  | m :: ms => memberDiags m ++ diagsOf ms

/-- Whether some member function of the list is a destructor — the value
the `has_dtor` flag accumulates over the loop. -/
def anyDtor (ms : List MemberNode) : Bool :=
  ms.any (fun m => m.isFunction && m.isDestructor)

lemma interfaceMember_eq (m : MemberNode) (errors : List ErrorEntry) :
    interfaceMember m errors =
      (transformMember m, errors ++ memberDiags m,
        m.isFunction && m.isDestructor) := by
  cases m with
  | mk o f ct cit cmt at_ ait amt hi mpa pub virt dtor =>
    cases f <;> cases o <;> cases mpa <;>
      simp [interfaceMember, transformMember, memberDiags, require,
        make_public, make_function_virtual, is_copy_or_move] <;>
      cases ct <;> cases at_ <;> cases hi <;> simp

lemma interfaceLoop_eq (ms : List MemberNode) (errors : List ErrorEntry)
    (d : Bool) :
    interfaceLoop ms errors d =
      (ms.map transformMember, errors ++ diagsOf ms, d || anyDtor ms) := by
  induction ms generalizing errors d with
  | nil => simp [interfaceLoop, diagsOf, anyDtor]
  | cons m ms ih =>
    simp only [interfaceLoop, interfaceMember_eq, ih, diagsOf, anyDtor,
      List.map_cons, List.any_cons, List.append_assoc, Prod.mk.injEq]
    cases d <;> cases (m.isFunction && m.isDestructor) <;> simp [anyDtor]

lemma interface_eq (parse : String → Option MemberNode) (t : TypeState) :
    interface parse t =
      if anyDtor t.members then
        { members := t.members.map transformMember
          errors := t.errors ++ diagsOf t.members }
      else
        match parse dtorTemplate with
        | some d =>
          { members := t.members.map transformMember ++ [d]
            errors := t.errors ++ diagsOf t.members }
        | none =>
          { members := t.members.map transformMember
            errors := t.errors ++ diagsOf t.members ++ [⟨{}, msgDtor⟩] } := by
  simp only [interface, interfaceLoop_eq, Bool.false_or]
  cases h : anyDtor t.members with
  | true => simp
  | false =>
    simp only [Bool.not_false, if_true]
    cases hp : parse dtorTemplate with
    | some d => simp [add_member, hp, require]
    | none => simp [add_member, hp, require]

/-- C5: `require(condition, message, position)` appends exactly one
diagnostic entry `(position, message)` at the end of the shared sink when
the condition is false, leaves the sink completely unchanged when the
condition is true, and, when no position is supplied, the appended entry
carries the default (empty/unknown) source position.  The embedding is a
total Lean function, matching the source, which never throws here. -/
theorem require_spec (errors : List ErrorEntry) (b : Bool) (msg : String)
    (pos : SourcePosition) :
    (b = false → require errors b msg pos = errors ++ [⟨pos, msg⟩]) ∧
    (b = true → require errors b msg pos = errors) ∧
    (b = false → requireDefault errors b msg = errors ++ [⟨{}, msg⟩]) := by
  refine ⟨?_, ?_, ?_⟩ <;> intro h <;> subst h <;>
    simp [require, requireDefault]

theorem require_spec_w :
    require [] false "m" {} = [⟨{}, "m"⟩] ∧
      require [⟨{}, "a"⟩] true "m" {} = [⟨{}, "a"⟩] ∧
      requireDefault [] false "m" = [⟨{}, "m"⟩] :=
  ⟨(require_spec [] false "m" {}).1 rfl,
    (require_spec [⟨{}, "a"⟩] true "m" {}).2.1 rfl,
    (require_spec [] false "m" {}).2.2 rfl⟩

/-- C6: `add_member(S)` returns true exactly when the fragment parsed
successfully and the resulting syntax node was appended at the end of the
type's member list; when `parse_statement` returns none the call returns
false and the member list (indeed the whole state) is unchanged. -/
theorem add_member_spec (parse : String → Option MemberNode) (t : TypeState)
    (src : String) :
    (∀ d, parse src = some d →
      add_member parse t src =
        (true, { t with members := t.members ++ [d] })) ∧
    (parse src = none → add_member parse t src = (false, t)) := by
  constructor
  · intro d hd
    simp [add_member, hd]
  · intro hn
    simp [add_member, hn]

theorem add_member_spec_w :
    add_member (fun _ => some {}) { members := [], errors := [] } "x" =
        (true, { members := [({} : MemberNode)], errors := [] }) ∧
      add_member (fun _ => none) { members := [], errors := [] } "x" =
        (false, { members := [], errors := [] }) :=
  ⟨(add_member_spec (fun _ => some {}) { members := [], errors := [] } "x").1
      {} rfl,
    (add_member_spec (fun _ => none) { members := [], errors := [] } "x").2
      rfl⟩

/-- C7: when lexing the fragment's lines yields exactly one token group,
the assertion in `parse_statement` never fails and a result is produced;
when lexing yields more than one group, `parse_statement` is a fatal
contract violation (the failed assertion), not a recoverable parse
failure. -/
theorem parse_statement_spec (lexGC : List (List Char) → Nat)
    (pOne : List (List Char) → Option MemberNode) (src : List Char) :
    (lexGC (splitIntoLines src) = 1 →
      parse_statement lexGC pOne src =
        Except.ok (splitIntoLines src, pOne (splitIntoLines src))) ∧
    (1 < lexGC (splitIntoLines src) →
      parse_statement lexGC pOne src = Except.error assertionMsg) := by
  constructor
  · intro h
    simp [parse_statement, h]
  · intro h
    have hne : lexGC (splitIntoLines src) ≠ 1 := by omega
    simp [parse_statement, hne]

theorem parse_statement_spec_w :
    parse_statement (fun _ => 1) (fun _ => none) "x".toList =
        Except.ok (splitIntoLines "x".toList, none) ∧
      parse_statement (fun _ => 2) (fun _ => none) "x".toList =
        Except.error assertionMsg :=
  ⟨(parse_statement_spec (fun _ => 1) (fun _ => none) "x".toList).1 rfl,
    (parse_statement_spec (fun _ => 2) (fun _ => none) "x".toList).2
      (by omega)⟩

/-- C8, counterexample: a move-constructor shape (a that-parameter
constructor whose narrowing is the move form) satisfies `is_copy_or_move`
although it satisfies neither copy-narrowed predicate, so the claim's
equation with the copy-narrowed disjunction fails on it. -/
theorem is_copy_or_move_cex :
    is_copy_or_move moveCtorNode = true ∧
      claimCopyNarrowed moveCtorNode = false := by
  constructor <;> rfl

/-- C8, amended: `is_copy_or_move` is the disjunction of the un-narrowed
that-parameter constructor and assignment shapes; equivalently, given that
each that-shape is either its in/copy or its move narrowing, it is the
disjunction of all four copy and move operation shapes. -/
theorem is_copy_or_move_amended (m : MemberNode)
    (hc : m.isConstructorWithThat =
      (m.isConstructorWithInThat || m.isConstructorWithMoveThat))
    (ha : m.isAssignmentWithThat =
      (m.isAssignmentWithInThat || m.isAssignmentWithMoveThat)) :
    is_copy_or_move m =
      (m.isConstructorWithInThat || m.isConstructorWithMoveThat ||
        m.isAssignmentWithInThat || m.isAssignmentWithMoveThat) := by
  simp [is_copy_or_move, hc, ha, Bool.or_assoc]

theorem is_copy_or_move_amended_w :
    is_copy_or_move moveCtorNode =
      (moveCtorNode.isConstructorWithInThat ||
        moveCtorNode.isConstructorWithMoveThat ||
        moveCtorNode.isAssignmentWithInThat ||
        moveCtorNode.isAssignmentWithMoveThat) :=
  is_copy_or_move_amended moveCtorNode rfl rfl

/-- C10: when `has_name()` is false, `declaration::name` returns the empty
string without consulting the node's name token (the accessor is total: the
null dereference modelled by `Except.error` is unreachable), and when the
node carries a name token the accessor returns its text. -/
theorem declaration_name_spec (n : NamedNode) :
    (node_has_name n = false → declaration_name n = Except.ok "") ∧
    (∀ s, n.nameTok = some s → declaration_name n = Except.ok s) ∧
    declaration_name n ≠ Except.error () := by
  cases n with
  | mk tok => cases tok <;> simp [declaration_name, node_has_name]

theorem declaration_name_spec_w :
    declaration_name ⟨none⟩ = Except.ok "" ∧
      declaration_name ⟨some "draw"⟩ = Except.ok "draw" :=
  ⟨(declaration_name_spec ⟨none⟩).1 rfl,
    (declaration_name_spec ⟨some "draw"⟩).2.1 "draw" rfl⟩

/-- C3: for every function member the `interface` meta-function performs
the three policy checks in order — not a copy/move operation shape, no
inline body/initializer, and the make-public request accepted — each failed
check appending exactly one non-fatal diagnostic with the stated message,
while execution continues: the member is still transformed and its
destructor observation still reported.  The remaining conjuncts pin the
three diagnostic texts to the ones the claim quotes. -/
theorem interface_function_checks (m : MemberNode) (errors : List ErrorEntry)
    (hf : m.isFunction = true) (hobj : m.isObject = false) :
    interfaceMember m errors =
      (transformMember m,
        errors ++
          ((if is_copy_or_move m then [⟨{}, msgCopyMove⟩] else []) ++
            (if m.hasInitializer then [⟨{}, msgBody⟩] else []) ++
              (if m.makePublicAccepts then [] else [⟨{}, msgPublic⟩])),
        m.isDestructor) ∧
    msgCopyMove =
      "interfaces may not copy or move; consider a virtual clone() instead" ∧
    containsSub msgBody.toList
      "interface functions must not have a function body".toList = true ∧
    msgPublic = "interface functions must be public" := by
  refine ⟨?_, rfl, by decide, rfl⟩
  rw [interfaceMember_eq]
  simp [memberDiags, hobj, hf]

theorem interface_function_checks_w :
    interfaceMember { isFunction := true, hasInitializer := true } [] =
      ({ isFunction := true, hasInitializer := true, isPublic := true,
          isVirtual := true },
        [⟨{}, msgBody⟩], false) := by
  have h :=
    (interface_function_checks { isFunction := true, hasInitializer := true }
      [] rfl rfl).1
  simpa [transformMember, is_copy_or_move] using h

lemma apply_all_recognized (parse : String → Option MemberNode) :
    ∀ (names : List String) (t : TypeState),
      (∀ x ∈ names, x = "interface") →
      apply_type_meta_functions parse names t =
        (true, (interface parse)^[names.length] t) := by
  intro names
  induction names with
  | nil =>
    intro t _
    simp [apply_type_meta_functions]
  | cons x rest ih =>
    intro t hall
    have hx : x = "interface" := hall x (List.mem_cons_self x rest)
    subst hx
    rw [apply_type_meta_functions, if_pos rfl,
      ih (interface parse t) (fun y hy => hall y (List.mem_cons_of_mem _ hy))]
    simp [Function.iterate_succ_apply]

lemma apply_first_unrecognized (parse : String → Option MemberNode) :
    ∀ (pre : List String) (name : String) (rest : List String)
      (t : TypeState),
      (∀ x ∈ pre, x = "interface") → name ≠ "interface" →
      apply_type_meta_functions parse (pre ++ name :: rest) t =
        (false,
          { (interface parse)^[pre.length] t with
            errors :=
              parserEmitError ((interface parse)^[pre.length] t).errors
                unrecognizedMsg }) := by
  intro pre
  induction pre with
  | nil =>
    intro name rest t _ hname
    simp [apply_type_meta_functions, hname]
  | cons x pre' ih =>
    intro name rest t hall hname
    have hx : x = "interface" := hall x (List.mem_cons_self x pre')
    subst hx
    rw [List.cons_append, apply_type_meta_functions, if_pos rfl,
      ih name rest (interface parse t)
        (fun y hy => hall y (List.mem_cons_of_mem _ hy)) hname]
    simp [Function.iterate_succ_apply]

/-- C4: the dispatcher walks the declaration's meta-function names in
declared order, applying the `interface` handler once per name equal to
"interface"; at the first name outside the handler table it emits the
fatal unrecognized-name error, ignores every remaining name, and returns
false; when every name is recognized it returns true, with the state being
the handlers' applications in order. -/
theorem apply_type_meta_functions_spec (parse : String → Option MemberNode)
    (names : List String) (t : TypeState) :
    ((∀ x ∈ names, x = "interface") →
      apply_type_meta_functions parse names t =
        (true, (interface parse)^[names.length] t)) ∧
    (∀ pre name rest, names = pre ++ name :: rest →
      (∀ x ∈ pre, x = "interface") → name ≠ "interface" →
      apply_type_meta_functions parse names t =
        (false,
          { (interface parse)^[pre.length] t with
            errors :=
              parserEmitError ((interface parse)^[pre.length] t).errors
                unrecognizedMsg })) := by
  constructor
  · exact apply_all_recognized parse names t
  · intro pre name rest hsplit hall hname
    rw [hsplit]
    exact apply_first_unrecognized parse pre name rest t hall hname

theorem apply_type_meta_functions_spec_w :
    apply_type_meta_functions (fun _ => some {}) ["not-a-meta"]
        { members := [], errors := [] } =
      (false, { members := [], errors := [⟨{}, unrecognizedMsg⟩] }) := by
  have h :=
    (apply_type_meta_functions_spec (fun _ => some {}) ["not-a-meta"]
        { members := [], errors := [] }).2
      [] "not-a-meta" [] rfl (by intro x hx; cases hx) (by decide)
  simpa [parserEmitError] using h

lemma interface_members_shape (parse : String → Option MemberNode)
    (t : TypeState) :
    ∃ extra, (interface parse t).members =
      t.members.map transformMember ++ extra := by
  rw [interface_eq]
  cases hd : anyDtor t.members with
  | true => exact ⟨[], by simp⟩
  | false =>
    cases hp : parse dtorTemplate with
    | some d => exact ⟨[d], by simp⟩
    | none => exact ⟨[], by simp⟩

lemma interface_errors_shape (parse : String → Option MemberNode)
    (t : TypeState) :
    ∃ extra, (interface parse t).errors =
      t.errors ++ diagsOf t.members ++ extra := by
  rw [interface_eq]
  cases hd : anyDtor t.members with
  | true => exact ⟨[], by simp⟩
  | false =>
    cases hp : parse dtorTemplate with
    | some d => exact ⟨[], by simp⟩
    | none => exact ⟨[⟨{}, msgDtor⟩], by simp⟩

lemma msgBody_mem_memberDiags (m : MemberNode) (hf : m.isFunction = true)
    (hi : m.hasInitializer = true) :
    (⟨{}, msgBody⟩ : ErrorEntry) ∈ memberDiags m := by
  simp [memberDiags, hf, hi]

lemma mem_diagsOf (e : ErrorEntry) :
    ∀ (ms : List MemberNode) (m : MemberNode), m ∈ ms →
      e ∈ memberDiags m → e ∈ diagsOf ms := by
  intro ms
  induction ms with
  | nil =>
    intro m hm
    cases hm
  | cons x xs ih =>
    intro m hm he
    rcases List.mem_cons.mp hm with h | h
    · subst h
      exact List.mem_append.mpr (Or.inl he)
    · exact List.mem_append.mpr (Or.inr (ih m h he))

/-- C1: the `interface` meta-function invokes `make_function_virtual` on
every function member unconditionally — the theorem assumes nothing about
the outcome of the preceding checks — so every function member's virtual
flag ends set true; in particular a function member with an inline body
both yields a diagnostic containing "must not have a function body" and
still ends virtual. -/
theorem interface_virtualizes_unconditionally
    (parse : String → Option MemberNode) (t : TypeState) (i : Nat)
    (h : i < t.members.length)
    (hf : (t.members.get ⟨i, h⟩).isFunction = true) :
    (∃ h2 : i < (interface parse t).members.length,
      ((interface parse t).members.get ⟨i, h2⟩).isVirtual = true) ∧
    ((t.members.get ⟨i, h⟩).hasInitializer = true →
      ∃ e ∈ (interface parse t).errors,
        containsSub e.msg.toList
          "must not have a function body".toList = true) := by
  obtain ⟨extra, hm⟩ := interface_members_shape parse t
  obtain ⟨extra2, he⟩ := interface_errors_shape parse t
  constructor
  · have hlen : i < (interface parse t).members.length := by
      rw [hm, List.length_append, List.length_map]
      omega
    refine ⟨hlen, ?_⟩
    have hf' : t.members[i].isFunction = true := by
      simpa [List.get_eq_getElem] using hf
    have hq : (interface parse t).members[i]? =
        some (transformMember t.members[i]) := by
      rw [hm, List.getElem?_append_left (by rw [List.length_map]; exact h),
        List.getElem?_map, List.getElem?_eq_getElem h]
      rfl
    have hq2 : (interface parse t).members[i]? =
        some ((interface parse t).members.get ⟨i, hlen⟩) := by
      rw [List.get_eq_getElem, List.getElem?_eq_getElem hlen]
    rw [hq] at hq2
    injection hq2 with hh
    rw [← hh]
    simp [transformMember, hf']
  · intro hinit
    refine ⟨⟨{}, msgBody⟩, ?_, by decide⟩
    rw [he]
    refine List.mem_append.mpr (Or.inl (List.mem_append.mpr (Or.inr ?_)))
    exact mem_diagsOf _ t.members (t.members.get ⟨i, h⟩)
      (t.members.get_mem _ _) (msgBody_mem_memberDiags _ hf hinit)

/-- A concrete non-conformant function member: it has an inline body. -/
def sampleBodyMember : MemberNode :=
  { isFunction := true, hasInitializer := true }

/-- A fragment compiler that accepts every fragment, producing a default
node. -/
def sampleParse : String → Option MemberNode := fun _ => some {}

/-- A type with a single non-conformant function member and a clean sink. -/
def sampleType : TypeState := { members := [sampleBodyMember], errors := [] }

theorem interface_virtualizes_unconditionally_w :
    (∃ h2 : 0 < (interface sampleParse sampleType).members.length,
      ((interface sampleParse sampleType).members.get ⟨0, h2⟩).isVirtual =
        true) ∧
    (∃ e ∈ (interface sampleParse sampleType).errors,
      containsSub e.msg.toList
        "must not have a function body".toList = true) := by
  have h := interface_virtualizes_unconditionally sampleParse sampleType 0
    (by decide) (by decide)
  exact ⟨h.1, h.2 (by decide)⟩

/-- C2: the `interface` meta-function synthesizes a destructor substitute
exactly when no function member observed in the loop is a destructor: with
a destructor present the synthesis step leaves the member count unchanged;
with none present `add_member` runs on the fixed template `dtorTemplate`,
appending the parsed node on success and appending the diagnostic
"could not add pure virtual destructor" on failure; a type with zero
members and no destructor therefore ends with exactly one additional
member and no new diagnostics. -/
theorem interface_dtor_synthesis (parse : String → Option MemberNode)
    (t : TypeState) :
    (anyDtor t.members = true →
      (interface parse t).members.length = t.members.length ∧
      (interface parse t).errors = t.errors ++ diagsOf t.members) ∧
    (anyDtor t.members = false →
      (∀ d, parse dtorTemplate = some d →
        (interface parse t).members =
          t.members.map transformMember ++ [d] ∧
        (interface parse t).errors = t.errors ++ diagsOf t.members) ∧
      (parse dtorTemplate = none →
        (interface parse t).members = t.members.map transformMember ∧
        (interface parse t).errors =
          t.errors ++ diagsOf t.members ++ [⟨{}, msgDtor⟩])) ∧
    (t.members = [] → ∀ d, parse dtorTemplate = some d →
      (interface parse t).members = [d] ∧
      (interface parse t).errors = t.errors) := by
  refine ⟨?_, ?_, ?_⟩
  · intro hd
    rw [interface_eq, if_pos hd]
    simp
  · intro hd
    constructor
    · intro d hp
      rw [interface_eq, if_neg (by rw [hd]; exact Bool.false_ne_true), hp]
      exact ⟨rfl, rfl⟩
    · intro hp
      rw [interface_eq, if_neg (by rw [hd]; exact Bool.false_ne_true), hp]
      exact ⟨rfl, rfl⟩
  · intro hnil d hp
    have hd : anyDtor t.members = false := by
      rw [hnil]
      rfl
    rw [interface_eq, if_neg (by rw [hd]; exact Bool.false_ne_true), hp, hnil]
    simp [diagsOf]

theorem interface_dtor_synthesis_w :
    (interface sampleParse { members := [], errors := [] }).members =
        [({} : MemberNode)] ∧
      (interface sampleParse { members := [], errors := [] }).errors = [] :=
  (interface_dtor_synthesis sampleParse
      { members := [], errors := [] }).2.2 rfl {} rfl

lemma strFind_cons_eq (c : Char) (s : List Char) :
    strFind c (c :: s) = some 0 := by
  simp [strFind]

lemma strFind_cons_ne (c x : Char) (s : List Char) (h : ¬x = c) :
    strFind c (x :: s) = (strFind c s).map (· + 1) := by
  simp [strFind, h]

lemma strFind_none_cons (c x : Char) (s : List Char)
    (h : strFind c (x :: s) = none) : ¬x = c ∧ strFind c s = none := by
  by_cases hx : x = c
  · subst hx
    rw [strFind_cons_eq] at h
    cases h
  · rw [strFind_cons_ne c x s hx] at h
    cases hf : strFind c s with
    | none => exact ⟨hx, rfl⟩
    | some j =>
      rw [hf] at h
      cases h

lemma strFind_some (c : Char) :
    ∀ (s : List Char) (i : Nat), strFind c s = some i →
      s.take i ++ c :: s.drop (i + 1) = s ∧ strFind c (s.take i) = none := by
  intro s
  induction s with
  | nil =>
    intro i h
    cases h
  | cons x xs ih =>
    intro i h
    by_cases hx : x = c
    · subst hx
      rw [strFind_cons_eq] at h
      injection h with h0
      subst h0
      exact ⟨by simp, rfl⟩
    · rw [strFind_cons_ne c x xs hx] at h
      cases hf : strFind c xs with
      | none =>
        rw [hf] at h
        cases h
      | some j =>
        rw [hf] at h
        have h0 : j + 1 = i := by
          simpa using h
        subst h0
        obtain ⟨hd, hn⟩ := ih j hf
        constructor
        · rw [List.take_succ_cons, List.drop_succ_cons, List.cons_append, hd]
        · rw [List.take_succ_cons, strFind_cons_ne c x _ hx, hn]
          rfl

lemma lineLoop_of_none (s : List Char) (h : strFind '\n' s = none) :
    lineLoop s = ([], s) := by
  rw [lineLoop.eq_def]
  split
  · rename_i i hi
    rw [h] at hi
    cases hi
  · rfl

lemma lineLoop_of_some (s : List Char) (i : Nat)
    (h : strFind '\n' s = some i) :
    lineLoop s =
      (s.take i :: (lineLoop (s.drop (i + 1))).1,
        (lineLoop (s.drop (i + 1))).2) := by
  rw [lineLoop.eq_def]
  split
  · rename_i j hj
    rw [h] at hj
    injection hj with hj0
    subst hj0
    rfl
  · rename_i hn
    rw [h] at hn
    cases hn

lemma segmentsNl_cons (c : Char) (s : List Char) :
    segmentsNl (c :: s) =
      if c = '\n' then [] :: segmentsNl s
      else
        match segmentsNl s with
        | [] => [[c]]
        | l :: ls => (c :: l) :: ls := rfl

lemma segmentsNl_ne_nil (s : List Char) : segmentsNl s ≠ [] := by
  induction s with
  | nil => simp [segmentsNl]
  | cons c cs ih =>
    rw [segmentsNl_cons]
    by_cases hc : c = '\n'
    · simp [hc]
    · rw [if_neg hc]
      cases hseg : segmentsNl cs <;> simp

lemma segmentsNl_cons_other (c : Char) (s : List Char) (hc : ¬c = '\n')
    (hh : List Char) (ht : List (List Char)) (hs : segmentsNl s = hh :: ht) :
    segmentsNl (c :: s) = (c :: hh) :: ht := by
  rw [segmentsNl_cons, if_neg hc, hs]

lemma segmentsNl_no_nl (s : List Char) (h : strFind '\n' s = none) :
    segmentsNl s = [s] := by
  induction s with
  | nil => rfl
  | cons c cs ih =>
    obtain ⟨hc, hcs⟩ := strFind_none_cons '\n' c cs h
    exact segmentsNl_cons_other c cs hc cs [] (ih hcs)

lemma segmentsNl_append (b : List Char) :
    ∀ a : List Char, strFind '\n' a = none →
      segmentsNl (a ++ '\n' :: b) = a :: segmentsNl b := by
  intro a
  induction a with
  | nil =>
    intro _
    rw [List.nil_append, segmentsNl_cons, if_pos rfl]
  | cons x a' ih =>
    intro h
    obtain ⟨hx, ha'⟩ := strFind_none_cons '\n' x a' h
    rw [List.cons_append]
    exact segmentsNl_cons_other x (a' ++ '\n' :: b) hx a' (segmentsNl b)
      (ih ha')

/-- The lines `splitIntoLines` produces from the loop's output: the peeled
lines plus the remaining source as a final line when non-empty. -/
def withRest (p : List (List Char) × List Char) : List (List Char) :=
  p.1 ++ (if p.2 = [] then [] else [p.2])

lemma withRest_cons (a : List Char) (p : List (List Char) × List Char) :
    withRest (a :: p.1, p.2) = a :: withRest p := by
  simp [withRest]

lemma dropLastKeep_cons (a : List Char) (parts : List (List Char))
    (h : parts ≠ []) :
    dropLastKeep (a :: parts) = a :: dropLastKeep parts := by
  cases parts with
  | nil => exact absurd rfl h
  | cons p ps => rfl

lemma withRest_lineLoop (n : Nat) :
    ∀ s : List Char, s.length ≤ n →
      withRest (lineLoop s) = dropLastKeep (segmentsNl s) := by
  induction n with
  | zero =>
    intro s hs
    have h0 : s = [] := List.length_eq_zero.mp (Nat.le_zero.mp hs)
    subst h0
    rw [lineLoop_of_none [] rfl]
    rfl
  | succ n ih =>
    intro s hs
    cases hf : strFind '\n' s with
    | none =>
      rw [lineLoop_of_none s hf, segmentsNl_no_nl s hf]
      by_cases h0 : s = [] <;> simp [withRest, dropLastKeep, h0]
    | some i =>
      obtain ⟨hdec, hnone⟩ := strFind_some '\n' s i hf
      have hne : s ≠ [] := by
        intro h0
        rw [h0] at hf
        cases hf
      have hlen : (s.drop (i + 1)).length ≤ n := by
        have hpos : 0 < s.length := List.length_pos.mpr hne
        rw [List.length_drop]
        omega
      have hseg : segmentsNl s = s.take i :: segmentsNl (s.drop (i + 1)) := by
        conv_lhs => rw [← hdec]
        exact segmentsNl_append (s.drop (i + 1)) (s.take i) hnone
      rw [lineLoop_of_some s i hf, withRest_cons (s.take i) (lineLoop _),
        hseg,
        dropLastKeep_cons (s.take i) _ (segmentsNl_ne_nil (s.drop (i + 1))),
        ih (s.drop (i + 1)) hlen]

lemma splitIntoLines_of_cond (s : List Char)
    (h : 1 < s.length ∧ (strFind '\n' s).isSome) :
    splitIntoLines s = withRest (lineLoop s) := by
  rw [splitIntoLines, if_pos h]
  simp [withRest]

lemma splitIntoLines_of_not_cond (s : List Char)
    (h : ¬(1 < s.length ∧ (strFind '\n' s).isSome)) :
    splitIntoLines s = if s = [] then [] else [s] := by
  rw [splitIntoLines, if_neg h]
  by_cases h0 : s = [] <;> simp [h0]

/-- C9, counterexample: the empty fragment contains no line break, yet
`parse_statement` stores no line at all for it, while the claim prescribes
exactly one line equal to the whole (empty) fragment. -/
theorem splitIntoLines_cex :
    strFind '\n' ([] : List Char) = none ∧
      splitIntoLines ([] : List Char) = [] ∧
      claimLines ([] : List Char) = [[]] ∧
      splitIntoLines ([] : List Char) ≠ claimLines ([] : List Char) := by
  refine ⟨rfl, ?_, by decide, ?_⟩ <;> decide

/-- C9, amended: the empty fragment is stored as no lines; a fragment of
length exactly one is stored as itself as its only line (even when that one
character is a line break, in which case the stored line still contains
it); every other fragment is split as the claim describes — with no line
break it is one line equal to the whole fragment, otherwise each maximal
newline-free segment before a newline becomes one line and the non-empty
remainder after the last newline becomes the final line. -/
theorem splitIntoLines_amended (s : List Char) :
    splitIntoLines s = amendedLines s := by
  by_cases h0 : s = []
  · subst h0
    decide
  · by_cases h1 : s.length = 1
    · rw [amendedLines, if_neg h0, if_pos h1,
        splitIntoLines_of_not_cond s (fun hc => absurd hc.1 (by omega)),
        if_neg h0]
    · rw [amendedLines, if_neg h0, if_neg h1]
      have hlen2 : 1 < s.length := by
        have : 0 < s.length := List.length_pos.mpr h0
        omega
      cases hf : strFind '\n' s with
      | none =>
        rw [splitIntoLines_of_not_cond s (by rw [hf]; simp), if_neg h0,
          claimLines, if_pos (by rw [hf]; rfl)]
      | some i =>
        rw [splitIntoLines_of_cond s ⟨hlen2, by rw [hf]; rfl⟩, claimLines,
          if_neg (by rw [hf]; simp)]
        exact withRest_lineLoop s.length s le_rfl

end CppfrontReflect
